import Mathlib

/-!
Shallow embedding of the Legion peer-to-peer file sharing system
(src/peer.py, src/election.py, src/networking.py, src/file_manager.py).

Python dicts are modelled as association lists with insertion-order
semantics; timestamps (time.time) as integers (only differences and
order comparisons of timestamps occur); peer identifiers (UUID strings,
compared lexicographically by code point in Python) as Lean strings with
the lexicographic order on their character lists.  Side effects of the
handlers (sending UDP packets, arming threading.Timer) are returned
explicitly as a list of effects.
-/

namespace Legion

/-- Network address: (ip, port), as Python tuples (host, port). -/
abbrev Addr := String × Nat

/-- Peer roles, from the module-level constants in src/peer.py. -/
inductive Role where
  | FOLLOWER
  | CANDIDATE
  | LEADER
deriving DecidableEq, Repr

/-- Python dict as an association list (insertion-ordered, unique keys). -/
abbrev Dict (α β : Type) := List (α × β)

/-- Python `k in d`. -/
def dictContains [DecidableEq α] (d : Dict α β) (k : α) : Bool :=
  d.any (fun kv => kv.1 = k)

/-- Python `d.get(k)`. -/
def dictGet [DecidableEq α] (d : Dict α β) (k : α) : Option β :=
  (d.find? (fun kv => kv.1 = k)).map (·.2)

/-- Python `d[k] = v`: overwrite in place if present, else append. -/
def dictSet [DecidableEq α] (d : Dict α β) (k : α) (v : β) : Dict α β :=
  if dictContains d k then
    d.map (fun kv => if kv.1 = k then (k, v) else kv)
  else
    d ++ [(k, v)]

/-- Python `del d[k]` (guarded by `if k in d` at every call site). -/
def dictDel [DecidableEq α] (d : Dict α β) (k : α) : Dict α β :=
  d.filter (fun kv => ¬ kv.1 = k)

/-- Python truthiness of an optional string (None and the empty string
are falsy), used for `message.get(k) or ...` and `if expected_hash:`. -/
def pyTruthy : Option String → Bool
  | none => false
  | some s => ¬ s = ""

/-- Python `a or b` on optional strings. -/
def pyOr (a b : Option String) : Option String :=
  if pyTruthy a then a else b

/-- Python `a < b` on identifier strings: lexicographic comparison by
code point, as a computable Boolean. -/
def pyStrLt (a b : String) : Bool := decide (a.data < b.data)

/-- A peer directory record: `{'addr': (ip, port), 'last_seen': timestamp}`. -/
structure PeerRecord where
  addr : Addr
  last_seen : Int
deriving DecidableEq, Repr

/-- File metadata as carried by a PUBLISH payload in mapping form:
`{filename: {'size': ..., 'hash': ...}}` (hash may be null). -/
structure FileMeta where
  size : Nat
  hash : Option String
deriving DecidableEq, Repr

/-- The `files` field of a PUBLISH message: either the old-protocol plain
list of names or the mapping form. -/
inductive FilesPayload where
  | asList (names : List String)
  | asMap (entries : Dict String FileMeta)
deriving DecidableEq, Repr

/-- A global-catalog entry:
`{'peer_id', 'host', 'port', 'size', 'hash'}` (Peer.handle_publish). -/
structure CatalogEntry where
  peer_id : String
  host : String
  port : Option Nat
  size : Nat
  hash : Option String
deriving DecidableEq, Repr

/-- The leader's global catalog: {filename: [entry, ...]}. -/
abbrev Catalog := Dict String (List CatalogEntry)

/-- The UDP control messages (src/peer.py message catalogue).  Fields that
the code reads with `message.get` and that some sender omits (or sets to
null) are Options; fields read with `message[...]` and always present in
produced messages are required. -/
inductive Msg where
  | discovery (sender_id : String) (addr : Addr)
  | discoveryResponse (sender_id : String) (leader_id : String)
  | heartbeat (sender_id : Option String) (peer_id : Option String) (role : Option Role)
  | election (sender_id : String)
  | coordinator (sender_id : String) (addr : Option Addr)
  | publish (sender_id : String) (files : FilesPayload) (tcp_port : Option Nat)
  | queryFiles (sender_id : String)
  | fileList (sender_id : String) (catalog : Catalog)
deriving DecidableEq, Repr

/-- `message.get('sender_id')` as read by the dispatcher. -/
def Msg.senderId? : Msg → Option String
  | .discovery s _ => some s
  | .discoveryResponse s _ => some s
  | .heartbeat s _ _ => s
  | .election s => some s
  | .coordinator s _ => some s
  | .publish s _ _ => some s
  | .queryFiles s => some s
  | .fileList s _ => some s

/-- Deferred one-shot timers armed by the code (threading.Timer targets). -/
inductive TimerKind where
  | checkDiscoveryTimeout
  | checkElectionResult
deriving DecidableEq, Repr

/-- Observable side effects of a handler: UDP sends and timer arming. -/
inductive Effect where
  | broadcast (msg : Msg)
  | unicast (msg : Msg) (dst : Addr)
  | armTimer (seconds : Int) (kind : TimerKind)
deriving DecidableEq, Repr

/-- The mutable state of one peer process: the fields of Peer.__init__
together with the fields of its ElectionManager, plus the configuration
values (local IP, unicast UDP port) the handlers read. -/
structure Peer where
  id : String
  state : Role
  leader_id : Option String
  peers : Dict String PeerRecord
  global_catalog : Catalog
  last_heartbeats : Dict String Int
  last_leader_heartbeat : Int
  election_in_progress : Bool
  last_election_time : Int
  localIp : String
  udpPort : Nat
deriving DecidableEq, Repr

/-- ElectionManager.start_election: no-op if an election is in progress;
otherwise set the flag and timestamp, broadcast ELECTION{sender_id}, and
arm the 3-second decision timer. -/
def start_election (now : Int) (p : Peer) : Peer × List Effect :=
  if p.election_in_progress then
    (p, [])
  else
    ({ p with election_in_progress := true, last_election_time := now },
     [Effect.broadcast (Msg.election p.id),
      Effect.armTimer 3 TimerKind.checkElectionResult])

/-- ElectionManager.handle_election_message. -/
def handle_election_message (now : Int) (p : Peer) (sender_id : String) :
    Peer × List Effect :=
  if pyStrLt p.id sender_id then
    ({ p with election_in_progress := false }, [])
  else if pyStrLt sender_id p.id then
    if ¬ p.election_in_progress then start_election now p else (p, [])
  else
    (p, [])

/-- ElectionManager.declare_victory: become LEADER, adopt self as leader,
clear the election flag, broadcast COORDINATOR{sender_id, addr}. -/
def declare_victory (p : Peer) : Peer × List Effect :=
  ({ p with state := Role.LEADER,
            leader_id := some p.id,
            election_in_progress := false },
   [Effect.broadcast (Msg.coordinator p.id (some (p.localIp, p.udpPort)))])

/-- ElectionManager.check_election_result: on decision-timer expiry,
declare victory iff the election is still in progress. -/
def check_election_result (p : Peer) : Peer × List Effect :=
  if p.election_in_progress then declare_victory p else (p, [])

/-- Python `d[k]['field'] = v` style in-place update of one value. -/
def dictUpdate [DecidableEq α] (d : Dict α β) (k : α) (f : β → β) : Dict α β :=
  d.map (fun kv => if kv.1 = k then (kv.1, f kv.2) else kv)

/-- Peer.handle_discovery: only a LEADER answers, unicasting a
DISCOVERY_RESPONSE to the requester's transport address and recording the
requester in the directory. -/
def handle_discovery (now : Int) (p : Peer) (sender : String) (addr : Addr) :
    Peer × List Effect :=
  if p.state = Role.LEADER then
    ({ p with peers := dictSet p.peers sender ⟨addr, now⟩ },
     [Effect.unicast (Msg.discoveryResponse p.id p.id) addr])
  else (p, [])

/-- Peer.handle_discovery_response: adopt the announced leader, become
FOLLOWER, record the leader's transport address. -/
def handle_discovery_response (now : Int) (p : Peer) (leader : String)
    (addr : Addr) : Peer :=
  { p with leader_id := some leader, state := Role.FOLLOWER,
           peers := dictSet p.peers leader ⟨addr, now⟩ }

/-- The tail of Peer.handle_heartbeat at a leader: record the sender's
heartbeat timestamp (key `peer_id or sender_id` when truthy) and refresh
its directory last_seen if present. -/
def hbRecord (now : Int) (p : Peer) (pid? : Option String) : Peer :=
  if pyTruthy pid? then
    let pid := pid?.getD ""
    { p with last_heartbeats := dictSet p.last_heartbeats pid now,
             peers := if dictContains p.peers pid then
                        dictUpdate p.peers pid (fun r => { r with last_seen := now })
                      else p.peers }
  else p

/-- Peer.handle_heartbeat.  Returns none on the one path where the Python
code raises (comparing a missing sender_id against a string with `>`):
role LEADER carried by a message with no sender_id, received by a leader.
No message the system produces takes that path. -/
def handle_heartbeat (now : Int) (p : Peer) (sender_id? peer_id? : Option String)
    (role? : Option Role) : Option Peer :=
  let p1 := if p.state = Role.FOLLOWER ∧ sender_id? = p.leader_id then
              { p with last_leader_heartbeat := now }
            else p
  if p1.state = Role.LEADER then
    if role? = some Role.LEADER then
      match sender_id? with
      | none => none
      | some s =>
        if pyStrLt p1.id s then
          some { p1 with state := Role.FOLLOWER, leader_id := some s,
                         last_leader_heartbeat := now }
        else some (hbRecord now p1 (pyOr peer_id? sender_id?))
    else some (hbRecord now p1 (pyOr peer_id? sender_id?))
  else some p1

/-- Peer.handle_coordinator: adopt the announcer as leader, become
FOLLOWER, clear any in-flight election, record the announced address when
present, and reset the catalog to empty. -/
def handle_coordinator (now : Int) (p : Peer) (sender : String)
    (addr? : Option Addr) : Peer :=
  { p with leader_id := some sender, state := Role.FOLLOWER,
           election_in_progress := false,
           peers := match addr? with
                    | some a => dictSet p.peers sender ⟨a, now⟩
                    | none => p.peers,
           global_catalog := [] }

/-- The `files` normalisation in Peer.handle_publish: a list-form payload
(old protocol) becomes `\x7bf: \x7b'size': 0, 'hash': None\x7d for f in files\x7d`. -/
def filesToDict : FilesPayload → Dict String FileMeta
  | .asList names => names.foldl (fun d f => dictSet d f ⟨0, none⟩) []
  | .asMap m => m

/-- The catalog entry Peer.handle_publish builds for one file. -/
def publishEntry (localIp : String) (sender : String) (tcp_port : Option Nat)
    (addr? : Option Addr) (meta : FileMeta) : CatalogEntry :=
  { peer_id := sender,
    host := match addr? with | some a => a.1 | none => localIp,
    port := tcp_port,
    size := meta.size,
    hash := meta.hash }

/-- `if filename not in self.global_catalog: self.global_catalog[filename] = []`
in Peer.handle_publish. -/
def pubEnsure (c : Catalog) (fn : String) : Catalog :=
  if dictContains c fn then c else c ++ [(fn, [])]

/-- One iteration of the `for filename, metadata in files.items()` loop in
Peer.handle_publish: ensure the bucket exists, delete the publishing
peer's prior entry, append the fresh one. -/
def publishStep (localIp : String) (sender : String) (tcp_port : Option Nat)
    (addr? : Option Addr) (c : Catalog) (fm : String × FileMeta) : Catalog :=
  dictSet (pubEnsure c fm.1) fm.1
    ((((dictGet (pubEnsure c fm.1) fm.1).getD []).filter (fun e => ¬ e.peer_id = sender)) ++
      [publishEntry localIp sender tcp_port addr? fm.2])

/-- Peer.handle_publish (leader only; addr? = none on self-publish). -/
def handle_publish (p : Peer) (sender : String) (files : FilesPayload)
    (tcp_port : Option Nat) (addr? : Option Addr) : Peer :=
  if p.state = Role.LEADER then
    { p with global_catalog :=
        ((filesToDict files).foldl (publishStep p.localIp sender tcp_port addr?)
          p.global_catalog) }
  else p

/-- Peer.handle_query_files: a leader answers with the whole catalog. -/
def handle_query_files (p : Peer) (addr : Addr) : Peer × List Effect :=
  if p.state = Role.LEADER then
    (p, [Effect.unicast (Msg.fileList p.id p.global_catalog) addr])
  else (p, [])

/-- Peer.handle_file_list: replace the local catalog with the response. -/
def handle_file_list (p : Peer) (cat : Catalog) : Peer :=
  { p with global_catalog := cat }

/-- Peer.handle_udp_message: drop own messages, else dispatch on type.
Returns none when the invoked handler raises (see handle_heartbeat). -/
def handle_udp_message (now : Int) (p : Peer) (msg : Msg) (addr : Addr) :
    Option (Peer × List Effect) :=
  if msg.senderId? = some p.id then some (p, [])
  else
    match msg with
    | .discovery s _ => some (handle_discovery now p s addr)
    | .discoveryResponse _ lid => some (handle_discovery_response now p lid addr, [])
    | .heartbeat s? pid? r? => (handle_heartbeat now p s? pid? r?).map (fun q => (q, []))
    | .election s => some (handle_election_message now p s)
    | .coordinator s a? => some (handle_coordinator now p s a?, [])
    | .publish s files tp => some (handle_publish p s files tp (some addr), [])
    | .queryFiles _ => some (handle_query_files p addr)
    | .fileList _ cat => some (handle_file_list p cat, [])

/-- Eviction of one dead peer inside Peer._monitor_peers: delete it from
last_heartbeats and from the directory, strip its catalog entries, and
drop filenames whose entry list became empty. -/
def removeDeadPeer (q : Peer) (pid : String) : Peer :=
  { q with last_heartbeats := dictDel q.last_heartbeats pid,
           peers := dictDel q.peers pid,
           global_catalog :=
             (q.global_catalog.map
               (fun kv => (kv.1, kv.2.filter (fun e => ¬ e.peer_id = pid)))).filter
               (fun kv => ¬ kv.2.isEmpty) }

/-- One pass of the Peer._monitor_peers loop body (leader only): collect
the peers whose recorded heartbeat is older than 15 seconds, then evict
each.  The sweep iterates last_heartbeats, not the peer directory. -/
def monitor_peers_sweep (now : Int) (p : Peer) : Peer :=
  if p.state = Role.LEADER then
    ((p.last_heartbeats.filter (fun kv => 15 < now - kv.2)).map (·.1)).foldl
      removeDeadPeer p
  else p

/-- An inbound UDP datagram as seen by UDPSocket.listen: either its payload
decodes to a message (and the callback completes), or decoding fails. -/
inductive Datagram where
  | valid (msg : Msg) (src : Addr)
  | malformed
deriving DecidableEq, Repr

/-- What the receive loop did with a queue of datagrams. -/
structure ListenResult where
  delivered : List (Msg × Addr)
  errorsLogged : Nat
  terminated : Bool
deriving DecidableEq, Repr

/-- UDPSocket.listen's receive loop over a queue of inbound datagrams:
each valid datagram is delivered to the callback; an exception
(recvfrom failure, undecodable payload, or a callback error) is printed
and then the loop executes `break`, so nothing after it is processed.
terminated = false means the loop is still blocked on the next recvfrom. -/
def listen_loop : List Datagram → ListenResult
  | [] => ⟨[], 0, false⟩
  | .valid m a :: rest =>
      let r := listen_loop rest
      ⟨(m, a) :: r.delivered, r.errorsLogged, r.terminated⟩
  | .malformed :: _ => ⟨[], 1, true⟩

/-- Outcome of the post-transfer phase of FileManager.download_file. -/
structure VerifyOutcome where
  fileKept : Bool
  hashRecomputed : Bool
  mismatchWarned : Bool
deriving DecidableEq, Repr

/-- The integrity-verification tail of FileManager.download_file: after
TCPClient.receive_file returns, verification runs only under
`if expected_hash:`; on mismatch the code prints a warning but keeps the
file.  `computed` is the value _calculate_hash(save_path) would return
if it were invoked. -/
def downloadVerification (expected_hash : Option String) (computed : String) :
    VerifyOutcome :=
  if pyTruthy expected_hash then
    if some computed = expected_hash then ⟨true, true, false⟩
    else ⟨true, true, true⟩
  else ⟨true, false, false⟩

/-- No two entries of one filename bucket are attributed to the same peer. -/
def bucketOk (es : List CatalogEntry) : Prop :=
  es.Pairwise (fun a b => ¬ a.peer_id = b.peer_id)

/-- The catalog invariant: filenames are unique keys, and each filename
bucket holds at most one entry per peer — together, at most one entry per
(filename, peer_id) pair. -/
def CatalogOk (cat : Catalog) : Prop :=
  (cat.map Prod.fst).Nodup ∧ ∀ kv ∈ cat, bucketOk kv.2

instance (es : List CatalogEntry) : Decidable (bucketOk es) :=
  inferInstanceAs
    (Decidable (es.Pairwise (fun a b : CatalogEntry => ¬ a.peer_id = b.peer_id)))

instance (cat : Catalog) : Decidable (CatalogOk cat) :=
  inferInstanceAs (Decidable ((cat.map Prod.fst).Nodup ∧ ∀ kv ∈ cat, bucketOk kv.2))

/-- The catalog records, under filename f, some entry by peer s with
size 0 and a null hash (the shape synthesized from a list-form PUBLISH). -/
def hasNullEntry (cat : Catalog) (s f : String) : Prop :=
  ∃ es, dictGet cat f = some es ∧
    ∃ e ∈ es, e.peer_id = s ∧ e.size = 0 ∧ e.hash = none

/-- A peer is fully evicted: out of the directory, out of the heartbeat
table, and owning no catalog entry. -/
def peerEvicted (q : Peer) (pid : String) : Prop :=
  dictContains q.peers pid = false ∧
  dictContains q.last_heartbeats pid = false ∧
  ∀ kv ∈ q.global_catalog, ∀ e ∈ kv.2, ¬ e.peer_id = pid

/-- A follower fixture used to instantiate proved statements. -/
def pA : Peer :=
  { id := "A", state := Role.FOLLOWER, leader_id := none, peers := [],
    global_catalog := [], last_heartbeats := [], last_leader_heartbeat := 0,
    election_in_progress := false, last_election_time := 0,
    localIp := "127.0.0.1", udpPort := 1 }

/-- A leader fixture: it discovered peer "b" at time 0 (so "b" is in the
directory) but "b" never sent a heartbeat (so "b" has no entry in
last_heartbeats); peer "c" heartbeated at time 0. -/
def pL : Peer :=
  { id := "L", state := Role.LEADER, leader_id := some "L",
    peers := [("b", ⟨("10.0.0.2", 10), 0⟩), ("c", ⟨("10.0.0.3", 11), 0⟩)],
    global_catalog := [("a.txt", [⟨"c", "10.0.0.3", some 20, 5, some "h"⟩])],
    last_heartbeats := [("c", 0)], last_leader_heartbeat := 0,
    election_in_progress := false, last_election_time := 0,
    localIp := "10.0.0.1", udpPort := 9 }

section DictLemmas

variable {α β : Type} [DecidableEq α]

theorem mem_dictSet {d : Dict α β} {k : α} {v : β} {kv : α × β}
    (h : kv ∈ dictSet d k v) : kv = (k, v) ∨ kv ∈ d := by
  unfold dictSet at h
  split at h
  · rcases List.mem_map.mp h with ⟨kv0, hkv0, heq⟩
    by_cases hk : kv0.1 = k
    · simp only [hk, if_pos] at heq
      exact Or.inl heq.symm
    · simp only [hk, if_neg, not_false_iff] at heq
      exact Or.inr (heq ▸ hkv0)
  · rcases List.mem_append.mp h with h1 | h1
    · exact Or.inr h1
    · exact Or.inl (List.mem_singleton.mp h1)

theorem dictContains_eq_true_iff {d : Dict α β} {k : α} :
    dictContains d k = true ↔ ∃ kv ∈ d, kv.1 = k := by
  unfold dictContains
  rw [List.any_eq_true]
  constructor
  · rintro ⟨kv, hkv, hk⟩
    exact ⟨kv, hkv, of_decide_eq_true hk⟩
  · rintro ⟨kv, hkv, hk⟩
    exact ⟨kv, hkv, decide_eq_true hk⟩

theorem dictContains_dictSet_self (d : Dict α β) (k : α) (v : β) :
    dictContains (dictSet d k v) k = true := by
  unfold dictSet
  split
  · rename_i h
    rcases dictContains_eq_true_iff.mp h with ⟨kv, hkv, hk⟩
    refine dictContains_eq_true_iff.mpr ⟨(k, v), List.mem_map.mpr ⟨kv, hkv, ?_⟩, rfl⟩
    simp only [hk, if_pos]
  · exact dictContains_eq_true_iff.mpr ⟨(k, v), List.mem_append.mpr (Or.inr (by simp)), rfl⟩

theorem dictContains_dictSet_mono {d : Dict α β} {f : α} (k : α) (v : β)
    (h : dictContains d f = true) : dictContains (dictSet d k v) f = true := by
  rcases dictContains_eq_true_iff.mp h with ⟨kv, hkv, hf⟩
  unfold dictSet
  split
  · refine dictContains_eq_true_iff.mpr
      ⟨if kv.1 = k then (k, v) else kv, List.mem_map.mpr ⟨kv, hkv, rfl⟩, ?_⟩
    by_cases hk : kv.1 = k
    · simp only [hk, if_pos]
      rw [← hf, hk]
    · simp only [hk, if_neg, not_false_iff]
      exact hf
  · exact dictContains_eq_true_iff.mpr ⟨kv, List.mem_append.mpr (Or.inl hkv), hf⟩

theorem dictGet_mem {d : Dict α β} {f : α} {b : β}
    (h : dictGet d f = some b) : (f, b) ∈ d := by
  unfold dictGet at h
  rcases Option.map_eq_some'.mp h with ⟨kv, hfind, hb⟩
  have hmem := List.mem_of_find?_eq_some hfind
  have hpred : decide (kv.1 = f) = true :=
    @List.find?_some (α × β) (fun kv => decide (kv.1 = f)) kv d hfind
  have hf : kv.1 = f := of_decide_eq_true hpred
  have hkv : kv = (f, b) := by
    cases kv
    simp only at hf hb
    simp [hf, hb]
  exact hkv ▸ hmem

theorem dictGet_of_contains {d : Dict α β} {f : α}
    (h : dictContains d f = true) : ∃ b, dictGet d f = some b := by
  rcases dictContains_eq_true_iff.mp h with ⟨kv, hkv, hf⟩
  have hsome : (d.find? (fun kv => kv.1 = f)).isSome := by
    cases hfind : d.find? (fun kv => kv.1 = f)
    · have := List.find?_eq_none.mp hfind kv hkv
      exact absurd (decide_eq_true hf) this
    · rfl
  rcases Option.isSome_iff_exists.mp hsome with ⟨kv', hkv'⟩
  exact ⟨kv'.2, by simp [dictGet, hkv']⟩

theorem dictGet_eq_none_of_not_contains {d : Dict α β} {f : α}
    (h : dictContains d f = false) : dictGet d f = none := by
  unfold dictGet
  have hnone : d.find? (fun kv => kv.1 = f) = none := by
    apply List.find?_eq_none.mpr
    intro kv hkv hpred
    have : dictContains d f = true :=
      dictContains_eq_true_iff.mpr ⟨kv, hkv, of_decide_eq_true hpred⟩
    rw [this] at h
    exact Bool.true_eq_false.mp h
  rw [hnone]
  rfl

theorem find?_overwrite (k : α) (v : β) (t : Dict α β) :
    List.find? (fun kv => kv.1 = k) (t.map (fun kv => if kv.1 = k then (k, v) else kv)) =
      (List.find? (fun kv => kv.1 = k) t).map (fun _ => (k, v)) := by
  induction t with
  | nil => rfl
  | cons hd tl ih =>
    by_cases hk : hd.1 = k
    · simp [List.find?_cons, hk]
    · simp [List.find?_cons, hk, ih]

theorem find?_overwrite_ne {f k : α} (v : β) (h : ¬ f = k) (t : Dict α β) :
    List.find? (fun kv => kv.1 = f) (t.map (fun kv => if kv.1 = k then (k, v) else kv)) =
      List.find? (fun kv => kv.1 = f) t := by
  induction t with
  | nil => rfl
  | cons hd tl ih =>
    by_cases hk : hd.1 = k
    · have hhd : ¬ hd.1 = f := by
        rw [hk]
        intro he
        exact h he.symm
      have hkf : ¬ (k : α) = f := by
        intro he
        exact h he.symm
      simp [List.find?_cons, hk, hhd, hkf, ih]
    · by_cases hf : hd.1 = f
      · simp [List.find?_cons, hk, hf, h]
      · simp [List.find?_cons, hk, hf, ih]

theorem dictGet_dictSet_self (d : Dict α β) (k : α) (v : β) :
    dictGet (dictSet d k v) k = some v := by
  unfold dictGet dictSet
  split
  · rename_i h
    rw [find?_overwrite]
    rcases dictContains_eq_true_iff.mp h with ⟨kv, hkv, hf⟩
    cases hfind : List.find? (fun kv => decide (kv.1 = k)) d
    · have := List.find?_eq_none.mp hfind kv hkv
      exact absurd (decide_eq_true hf) this
    · simp
  · rename_i h
    have hnone : d.find? (fun kv => decide (kv.1 = k)) = none := by
      apply List.find?_eq_none.mpr
      intro kv hkv hpred
      exact h (dictContains_eq_true_iff.mpr ⟨kv, hkv, of_decide_eq_true hpred⟩)
    rw [List.find?_append, hnone]
    simp

theorem dictGet_dictSet_ne {d : Dict α β} {f k : α} (v : β) (h : ¬ f = k) :
    dictGet (dictSet d k v) f = dictGet d f := by
  unfold dictGet dictSet
  split
  · rw [find?_overwrite_ne v h]
  · rw [List.find?_append]
    have hone : List.find? (fun kv => kv.1 = f) [(k, v)] = none := by
      have hkf : ¬ (k : α) = f := by
        intro he
        exact h he.symm
      simp [List.find?_cons, hkf]
    rw [hone]
    simp

theorem keys_dictSet_of_contains {d : Dict α β} {k : α} (v : β)
    (h : dictContains d k = true) :
    (dictSet d k v).map Prod.fst = d.map Prod.fst := by
  unfold dictSet
  rw [if_pos h, List.map_map]
  apply List.map_congr_left
  intro kv _
  by_cases hk : kv.1 = k
  · simp [hk]
  · simp [hk]

theorem not_mem_keys_of_not_contains {d : Dict α β} {k : α}
    (h : dictContains d k = false) : k ∉ d.map Prod.fst := by
  intro hmem
  rcases List.mem_map.mp hmem with ⟨kv, hkv, hfst⟩
  have : dictContains d k = true := dictContains_eq_true_iff.mpr ⟨kv, hkv, hfst⟩
  rw [this] at h
  exact Bool.true_eq_false.mp h

end DictLemmas

theorem pyStrLt_iff (a b : String) : pyStrLt a b = true ↔ a < b := by
  rw [pyStrLt, decide_eq_true_iff, String.lt_iff_toList_lt]
  rfl

theorem pyStrLt_eq_false_of_not_lt {a b : String} (h : ¬ a < b) :
    pyStrLt a b = false := by
  rw [← Bool.not_eq_true, pyStrLt_iff]
  exact h

theorem pyStrLt_asymm {a b : String} (h : a < b) : pyStrLt b a = false :=
  pyStrLt_eq_false_of_not_lt (lt_asymm h)

/-- C4: on ELECTION from a strictly higher sender the receiver clears its
election flag and sends nothing; on ELECTION from a strictly lower sender
while not electing it starts a competing election, broadcasting
ELECTION{self} and arming the 3-second decision timer; and start_election
is a no-op while an election is already in progress. -/
theorem election_message_cases (now : Int) (p : Peer) (S : String) :
    (p.id < S →
      handle_election_message now p S =
        ({ p with election_in_progress := false }, [])) ∧
    (S < p.id → p.election_in_progress = false →
      handle_election_message now p S =
        ({ p with election_in_progress := true, last_election_time := now },
         [Effect.broadcast (Msg.election p.id),
          Effect.armTimer 3 TimerKind.checkElectionResult])) ∧
    (p.election_in_progress = true → start_election now p = (p, [])) := by
  refine ⟨?_, ?_, ?_⟩
  · intro h
    have hb : pyStrLt p.id S = true := (pyStrLt_iff _ _).mpr h
    simp [handle_election_message, hb]
  · intro h hf
    have hb : pyStrLt S p.id = true := (pyStrLt_iff _ _).mpr h
    have hb' : pyStrLt p.id S = false := pyStrLt_asymm h
    simp [handle_election_message, hb, hb', start_election, hf]
  · intro h
    simp [start_election, h]

/-- Witness for election_message_cases at concrete inputs. -/
theorem election_message_cases_witness :
    handle_election_message 5 pA "B" =
      ({ pA with election_in_progress := false }, []) ∧
    handle_election_message 5 pA "0" =
      ({ pA with election_in_progress := true, last_election_time := 5 },
       [Effect.broadcast (Msg.election pA.id),
        Effect.armTimer 3 TimerKind.checkElectionResult]) ∧
    start_election 5 { pA with election_in_progress := true } =
      ({ pA with election_in_progress := true }, []) :=
  ⟨(election_message_cases 5 pA "B").1 ((pyStrLt_iff _ _).mp (by decide)),
   (election_message_cases 5 pA "0").2.1 ((pyStrLt_iff _ _).mp (by decide)) rfl,
   (election_message_cases 5 { pA with election_in_progress := true } "B").2.2 rfl⟩

/-- C5: when the decision timer expires while the election is still in
progress, the peer becomes LEADER, adopts itself as leader, clears the
flag and broadcasts COORDINATOR with its identifier and address; when the
election is no longer in progress nothing happens. -/
theorem election_timer_expiry (p : Peer) :
    (p.election_in_progress = true →
      check_election_result p =
        ({ p with state := Role.LEADER, leader_id := some p.id,
                  election_in_progress := false },
         [Effect.broadcast (Msg.coordinator p.id (some (p.localIp, p.udpPort)))])) ∧
    (p.election_in_progress = false → check_election_result p = (p, [])) := by
  constructor
  · intro h
    simp [check_election_result, declare_victory, h]
  · intro h
    simp [check_election_result, h]

/-- Witness for election_timer_expiry at concrete inputs. -/
theorem election_timer_expiry_witness :
    check_election_result { pA with election_in_progress := true } =
      ({ pA with state := Role.LEADER, leader_id := some pA.id,
                 election_in_progress := false },
       [Effect.broadcast (Msg.coordinator pA.id (some (pA.localIp, pA.udpPort)))]) ∧
    check_election_result pA = (pA, []) :=
  ⟨(election_timer_expiry { pA with election_in_progress := true }).1 rfl,
   (election_timer_expiry pA).2 rfl⟩

/-- C9: the dispatcher returns immediately, invoking no handler and
producing no effect, on any message whose sender_id equals the receiving
peer's own identifier. -/
theorem own_message_ignored (now : Int) (p : Peer) (msg : Msg) (addr : Addr)
    (h : msg.senderId? = some p.id) :
    handle_udp_message now p msg addr = some (p, []) := by
  unfold handle_udp_message
  rw [if_pos h]

/-- Witness: a freshly victorious leader receiving back its own
COORDINATOR broadcast leaves its state untouched. -/
theorem own_message_ignored_witness :
    handle_udp_message 0 pA (Msg.coordinator "A" (some ("9.9.9.9", 2))) ("8.8.8.8", 3) =
      some (pA, []) :=
  own_message_ignored 0 pA (Msg.coordinator "A" (some ("9.9.9.9", 2))) ("8.8.8.8", 3) rfl

/-- C10: when download_file is given no expected hash — as for any catalog
entry whose hash is null — the post-transfer phase recomputes nothing,
warns about nothing, and keeps the file unconditionally. -/
theorem null_hash_skips_verification (e : CatalogEntry) (computed : String)
    (h : e.hash = none) :
    downloadVerification e.hash computed =
      { fileKept := true, hashRecomputed := false, mismatchWarned := false } := by
  rw [h]
  rfl

/-- Witness for null_hash_skips_verification on a zero-size null-hash
entry as synthesized from a list-form PUBLISH. -/
theorem null_hash_skips_verification_witness :
    downloadVerification (CatalogEntry.mk "q" "10.0.0.2" (some 1) 0 none).hash "abc" =
      { fileKept := true, hashRecomputed := false, mismatchWarned := false } :=
  null_hash_skips_verification (CatalogEntry.mk "q" "10.0.0.2" (some 1) 0 none) "abc" rfl

/-- C1 counterexample: a malformed datagram terminates the receive loop —
the error is logged but the following valid datagram is never delivered,
refuting the claim that the loop continues. -/
theorem listen_loop_malformed_cex :
    (listen_loop [Datagram.malformed, Datagram.valid (Msg.election "x") ("h", 1)]).terminated
        = true ∧
    (listen_loop [Datagram.malformed, Datagram.valid (Msg.election "x") ("h", 1)]).delivered
        = [] := by
  exact ⟨rfl, rfl⟩

/-- C1 amended: on the first malformed datagram the loop logs one error,
delivers exactly the valid datagrams that preceded it, and terminates;
everything after the malformed datagram is dropped unprocessed. -/
theorem listen_loop_malformed_halts (pre : List (Msg × Addr)) (rest : List Datagram) :
    listen_loop (pre.map (fun d => Datagram.valid d.1 d.2) ++ Datagram.malformed :: rest) =
      { delivered := pre, errorsLogged := 1, terminated := true } := by
  induction pre with
  | nil => rfl
  | cons hd tl ih => simp [listen_loop, ih]

theorem foldl_dictSet_const_values {v : FileMeta} :
    ∀ (names : List String) (d : Dict String FileMeta),
      (∀ kv ∈ d, kv.2 = v) →
      ∀ kv ∈ names.foldl (fun d f => dictSet d f v) d, kv.2 = v := by
  intro names
  induction names with
  | nil =>
    intro d hd kv hkv
    exact hd kv hkv
  | cons n t ih =>
    intro d hd kv hkv
    refine ih (dictSet d n v) ?_ kv hkv
    intro kv' hkv'
    rcases mem_dictSet hkv' with heq | hm
    · rw [heq]
    · exact hd kv' hm

theorem foldl_dictSet_contains {v : FileMeta} :
    ∀ (names : List String) (d : Dict String FileMeta) (f : String),
      (f ∈ names ∨ dictContains d f = true) →
      dictContains (names.foldl (fun d g => dictSet d g v) d) f = true := by
  intro names
  induction names with
  | nil =>
    intro d f h
    rcases h with h | h
    · exact absurd h (List.not_mem_nil f)
    · exact h
  | cons n t ih =>
    intro d f h
    rw [List.foldl_cons]
    rcases h with h | h
    · rcases List.mem_cons.mp h with heq | ht
      · subst heq
        exact ih (dictSet d f v) f (Or.inr (dictContains_dictSet_self d f v))
      · exact ih _ f (Or.inl ht)
    · exact ih _ f (Or.inr (dictContains_dictSet_mono n v h))

theorem publishStep_get_self (ip s : String) (tp : Option Nat) (a? : Option Addr)
    (c : Catalog) (fm : String × FileMeta) :
    ∃ pruned, dictGet (publishStep ip s tp a? c fm) fm.1 =
        some (pruned ++ [publishEntry ip s tp a? fm.2]) ∧
      ∀ e ∈ pruned, ¬ e.peer_id = s := by
  unfold publishStep
  refine ⟨_, dictGet_dictSet_self _ _ _, ?_⟩
  intro e he
  exact of_decide_eq_true (List.mem_filter.mp he).2

theorem pubEnsure_get_ne {c : Catalog} {f fn : String} (h : ¬ f = fn) :
    dictGet (pubEnsure c fn) f = dictGet c f := by
  unfold pubEnsure
  split
  · rfl
  · unfold dictGet
    rw [List.find?_append]
    have hone : List.find? (fun kv => kv.1 = f) [(fn, ([] : List CatalogEntry))] = none := by
      have hnf : ¬ (fn : String) = f := fun he => h he.symm
      simp [List.find?_cons, hnf]
    rw [hone]
    cases List.find? (fun kv => kv.1 = f) c <;> rfl

theorem publishStep_get_ne (ip s : String) (tp : Option Nat) (a? : Option Addr)
    (c : Catalog) (fm : String × FileMeta) {f : String} (h : ¬ f = fm.1)
    {es : List CatalogEntry} (hes : dictGet c f = some es) :
    dictGet (publishStep ip s tp a? c fm) f = some es := by
  unfold publishStep
  rw [dictGet_dictSet_ne _ h, pubEnsure_get_ne h]
  exact hes

theorem publish_fold_has_entry (ip s : String) (tp : Option Nat) (a? : Option Addr) :
    ∀ (fd : Dict String FileMeta) (cat : Catalog) (f : String),
      (∀ kv ∈ fd, kv.2 = (⟨0, none⟩ : FileMeta)) →
      ((f, (⟨0, none⟩ : FileMeta)) ∈ fd ∨ hasNullEntry cat s f) →
      hasNullEntry (fd.foldl (publishStep ip s tp a?) cat) s f := by
  intro fd
  induction fd with
  | nil =>
    intro cat f _ h
    rcases h with h | h
    · exact absurd h (List.not_mem_nil _)
    · exact h
  | cons hd t ih =>
    intro cat f hv h
    have hhd : hd.2 = (⟨0, none⟩ : FileMeta) := hv hd (List.mem_cons_self hd t)
    have hv' : ∀ kv ∈ t, kv.2 = (⟨0, none⟩ : FileMeta) :=
      fun kv hkv => hv kv (List.mem_cons_of_mem hd hkv)
    rw [List.foldl_cons]
    apply ih (publishStep ip s tp a? cat hd) f hv'
    by_cases hf : hd.1 = f
    · right
      rcases publishStep_get_self ip s tp a? cat hd with ⟨pruned, hget, _⟩
      rw [hf] at hget
      exact ⟨pruned ++ [publishEntry ip s tp a? hd.2], hget,
        publishEntry ip s tp a? hd.2,
        List.mem_append_right _ (List.mem_singleton_self _),
        rfl, by rw [hhd]; rfl, by rw [hhd]; rfl⟩
    · rcases h with h | h
      · rcases List.mem_cons.mp h with heq | ht
        · exact absurd (congrArg Prod.fst heq).symm hf
        · exact Or.inl ht
      · right
        rcases h with ⟨es, hget, he⟩
        refine ⟨es, publishStep_get_ne ip s tp a? cat hd ?_ hget, he⟩
        intro hfe
        exact hf hfe.symm

/-- C8: a list-form PUBLISH is processed exactly as the mapping-form
PUBLISH whose map sends each listed name to size 0 and a null hash, and
at a leader every listed filename ends up with a catalog entry by the
publishing peer bearing size 0 and a null hash. -/
theorem list_form_publish_synthesizes (p : Peer) (s : String) (names : List String)
    (tp : Option Nat) (a? : Option Addr) :
    (handle_publish p s (FilesPayload.asList names) tp a? =
      handle_publish p s (FilesPayload.asMap
        (names.foldl (fun d f => dictSet d f ⟨0, none⟩) [])) tp a?) ∧
    (p.state = Role.LEADER → ∀ f ∈ names,
      hasNullEntry
        (handle_publish p s (FilesPayload.asList names) tp a?).global_catalog s f) := by
  constructor
  · rfl
  · intro hL f hf
    unfold handle_publish
    rw [if_pos hL]
    have hv : ∀ kv ∈ filesToDict (FilesPayload.asList names),
        kv.2 = (⟨0, none⟩ : FileMeta) :=
      foldl_dictSet_const_values names []
        (fun kv hkv => absurd hkv (List.not_mem_nil kv))
    apply publish_fold_has_entry p.localIp s tp a? _ _ f hv
    left
    have hcont : dictContains (filesToDict (FilesPayload.asList names)) f = true :=
      foldl_dictSet_contains names [] f (Or.inl hf)
    rcases dictGet_of_contains hcont with ⟨b, hget⟩
    have hmem := dictGet_mem hget
    have hb : b = (⟨0, none⟩ : FileMeta) := hv (f, b) hmem
    rw [← hb]
    exact hmem

/-- Witness for list_form_publish_synthesizes at a concrete leader. -/
theorem list_form_publish_synthesizes_witness :
    hasNullEntry (handle_publish pL "q" (FilesPayload.asList ["x.txt"]) (some 7)
      (some ("10.0.0.5", 4))).global_catalog "q" "x.txt" :=
  (list_form_publish_synthesizes pL "q" ["x.txt"] (some 7) (some ("10.0.0.5", 4))).2
    rfl "x.txt" (by decide)

theorem dictContains_dictDel_self {β : Type} (d : Dict String β) (k : String) :
    dictContains (dictDel d k) k = false := by
  apply Bool.eq_false_iff.mpr
  intro hc
  rcases dictContains_eq_true_iff.mp hc with ⟨kv, hkv, hk⟩
  have hne := of_decide_eq_true (List.mem_filter.mp hkv).2
  exact absurd hk hne

theorem dictContains_dictDel_mono {β : Type} {d : Dict String β} {k : String}
    (k' : String) (h : dictContains d k = false) :
    dictContains (dictDel d k') k = false := by
  apply Bool.eq_false_iff.mpr
  intro hc
  rcases dictContains_eq_true_iff.mp hc with ⟨kv, hkv, hk⟩
  have hmem := List.mem_of_mem_filter hkv
  have htrue : dictContains d k = true := dictContains_eq_true_iff.mpr ⟨kv, hmem, hk⟩
  rw [htrue] at h
  exact Bool.true_eq_false.mp h

theorem removeDeadPeer_evicts (q : Peer) (pid : String) :
    peerEvicted (removeDeadPeer q pid) pid := by
  refine ⟨dictContains_dictDel_self q.peers pid,
          dictContains_dictDel_self q.last_heartbeats pid, ?_⟩
  intro kv hkv e he
  have hkv' := List.mem_of_mem_filter hkv
  rcases List.mem_map.mp hkv' with ⟨kv0, _, heq⟩
  rw [← heq] at he
  exact of_decide_eq_true (List.mem_filter.mp he).2

theorem peerEvicted_removeDeadPeer {q : Peer} {pid : String} (pid' : String)
    (h : peerEvicted q pid) : peerEvicted (removeDeadPeer q pid') pid := by
  obtain ⟨h1, h2, h3⟩ := h
  refine ⟨dictContains_dictDel_mono pid' h1, dictContains_dictDel_mono pid' h2, ?_⟩
  intro kv hkv e he
  have hkv' := List.mem_of_mem_filter hkv
  rcases List.mem_map.mp hkv' with ⟨kv0, hkv0, heq⟩
  rw [← heq] at he
  exact h3 kv0 hkv0 e (List.mem_of_mem_filter he)

theorem peerEvicted_foldl {pid : String} :
    ∀ (l : List String) (q : Peer),
      (pid ∈ l ∨ peerEvicted q pid) →
      peerEvicted (l.foldl removeDeadPeer q) pid := by
  intro l
  induction l with
  | nil =>
    intro q h
    rcases h with h | h
    · exact absurd h (List.not_mem_nil pid)
    · exact h
  | cons x t ih =>
    intro q h
    rw [List.foldl_cons]
    by_cases hx : x = pid
    · subst hx
      exact ih _ (Or.inr (removeDeadPeer_evicts q x))
    · rcases h with h | h
      · rcases List.mem_cons.mp h with heq | ht
        · exact absurd heq.symm hx
        · exact ih _ (Or.inl ht)
      · exact ih _ (Or.inr (peerEvicted_removeDeadPeer x h))

/-- C3 counterexample: the leader pL has peer "b" in its directory,
recorded at time 0 and silent ever since (it never heartbeated, so it has
no last_heartbeats entry); at time 100 its age is far above 15 seconds,
yet the sweep leaves it in the directory, because the sweep iterates
last_heartbeats, not the directory. -/
theorem silent_directory_peer_survives_sweep :
    pL.state = Role.LEADER ∧
    dictGet pL.peers "b" = some ⟨("10.0.0.2", 10), 0⟩ ∧
    dictGet pL.last_heartbeats "b" = none ∧
    (15 : Int) < 100 - 0 ∧
    dictContains (monitor_peers_sweep 100 pL).peers "b" = true := by
  refine ⟨rfl, by decide, by decide, by decide, by decide⟩

/-- C3 amended: the sweep evicts exactly the peers with a recorded
heartbeat timestamp older than 15 seconds: any such peer is removed from
the directory and the heartbeat table, and every catalog entry attributed
to it is purged (so it appears in no subsequent query result); a
directory-only peer with no heartbeat record is not touched. -/
theorem stale_heartbeat_peer_evicted (now : Int) (p : Peer) (pid : String) (ts : Int)
    (hL : p.state = Role.LEADER)
    (hts : dictGet p.last_heartbeats pid = some ts)
    (hold : 15 < now - ts) :
    peerEvicted (monitor_peers_sweep now p) pid := by
  unfold monitor_peers_sweep
  rw [if_pos hL]
  apply peerEvicted_foldl
  left
  have hmem := dictGet_mem hts
  refine List.mem_map.mpr ⟨(pid, ts), List.mem_filter.mpr ⟨hmem, ?_⟩, rfl⟩
  exact decide_eq_true hold

/-- Witness for stale_heartbeat_peer_evicted: peer "c" of pL heartbeated
at time 0 and is fully evicted by the sweep at time 100. -/
theorem stale_heartbeat_peer_evicted_witness :
    peerEvicted (monitor_peers_sweep 100 pL) "c" :=
  stale_heartbeat_peer_evicted 100 pL "c" 0 rfl (by decide) (by decide)

/-- C6: a COORDINATOR announcement from another peer, whatever the
receiver's current role, makes it a FOLLOWER of the announcer, clears any
in-flight election, records the announced address in the directory, and
resets the local catalog to empty; no reply is sent. -/
theorem coordinator_resets_follower (now : Int) (p : Peer) (S : String) (a : Addr)
    (src : Addr) (h : ¬ S = p.id) :
    handle_udp_message now p (Msg.coordinator S (some a)) src =
      some ({ p with leader_id := some S, state := Role.FOLLOWER,
                     election_in_progress := false,
                     peers := dictSet p.peers S ⟨a, now⟩,
                     global_catalog := [] }, []) := by
  unfold handle_udp_message
  rw [if_neg]
  · rfl
  · simp [Msg.senderId?, h]

/-- Witness: the leader pL accepts a COORDINATOR from "Z". -/
theorem coordinator_resets_follower_witness :
    handle_udp_message 50 pL (Msg.coordinator "Z" (some ("10.0.0.9", 7))) ("10.0.0.9", 7) =
      some ({ pL with leader_id := some "Z", state := Role.FOLLOWER,
                      election_in_progress := false,
                      peers := dictSet pL.peers "Z" ⟨("10.0.0.9", 7), 50⟩,
                      global_catalog := [] }, []) :=
  coordinator_resets_follower 50 pL "Z" ("10.0.0.9", 7) ("10.0.0.9", 7) (by decide)

theorem hbRecord_state (now : Int) (p : Peer) (x : Option String) :
    (hbRecord now p x).state = p.state := by
  unfold hbRecord
  split <;> rfl

theorem hbRecord_leader_id (now : Int) (p : Peer) (x : Option String) :
    (hbRecord now p x).leader_id = p.leader_id := by
  unfold hbRecord
  split <;> rfl

/-- C7: a leader receiving a LEADER-role heartbeat steps down to FOLLOWER
and adopts the sender exactly when the sender's identifier is strictly
higher than its own; for a lower-or-equal sender it stays LEADER with its
leader_id unchanged. -/
theorem conflicting_leader_stepdown (now : Int) (p : Peer) (S : String)
    (pid? : Option String) (hL : p.state = Role.LEADER) :
    (p.id < S →
      handle_heartbeat now p (some S) pid? (some Role.LEADER) =
        some { p with state := Role.FOLLOWER, leader_id := some S,
                      last_leader_heartbeat := now }) ∧
    (¬ p.id < S →
      ∃ q, handle_heartbeat now p (some S) pid? (some Role.LEADER) = some q ∧
        q.state = Role.LEADER ∧ q.leader_id = p.leader_id) := by
  constructor
  · intro h
    have hb : pyStrLt p.id S = true := (pyStrLt_iff _ _).mpr h
    simp [handle_heartbeat, hL, hb]
  · intro h
    have hb : pyStrLt p.id S = false := pyStrLt_eq_false_of_not_lt h
    refine ⟨hbRecord now p (pyOr pid? (some S)), ?_,
      (hbRecord_state now p _).trans hL, hbRecord_leader_id now p _⟩
    simp [handle_heartbeat, hL, hb]

/-- Witness for conflicting_leader_stepdown: pL (id "L") steps down for
"Z" but not for "A". -/
theorem conflicting_leader_stepdown_witness :
    (handle_heartbeat 99 pL (some "Z") none (some Role.LEADER) =
      some { pL with state := Role.FOLLOWER, leader_id := some "Z",
                     last_leader_heartbeat := 99 }) ∧
    (∃ q, handle_heartbeat 99 pL (some "A") none (some Role.LEADER) = some q ∧
      q.state = Role.LEADER ∧ q.leader_id = pL.leader_id) :=
  ⟨(conflicting_leader_stepdown 99 pL "Z" none rfl).1 ((pyStrLt_iff _ _).mp (by decide)),
   (conflicting_leader_stepdown 99 pL "A" none rfl).2
     (fun hlt => absurd ((pyStrLt_iff _ _).mpr hlt) (by decide))⟩

theorem catalogOk_nil : CatalogOk [] :=
  ⟨List.nodup_nil, fun kv hkv => absurd hkv (List.not_mem_nil kv)⟩

theorem catalogOk_pubEnsure {c : Catalog} (fn : String) (h : CatalogOk c) :
    CatalogOk (pubEnsure c fn) := by
  obtain ⟨hkeys, hbuckets⟩ := h
  unfold pubEnsure
  split
  · exact ⟨hkeys, hbuckets⟩
  · rename_i hnc
    constructor
    · rw [List.map_append]
      rw [List.nodup_append]
      refine ⟨hkeys, List.nodup_singleton _, ?_⟩
      intro a ha hb
      rw [List.map_singleton, List.mem_singleton] at hb
      subst hb
      exact not_mem_keys_of_not_contains (Bool.eq_false_iff.mpr hnc) ha
    · intro kv hkv
      rcases List.mem_append.mp hkv with hm | hm
      · exact hbuckets kv hm
      · rw [List.mem_singleton] at hm
        rw [hm]
        exact List.Pairwise.nil

theorem pubEnsure_contains (c : Catalog) (fn : String) :
    dictContains (pubEnsure c fn) fn = true := by
  unfold pubEnsure
  split
  · assumption
  · exact dictContains_eq_true_iff.mpr
      ⟨(fn, []), List.mem_append_right _ (List.mem_singleton_self _), rfl⟩

theorem catalogOk_dictSet {c1 : Catalog} {k : String} {es : List CatalogEntry}
    (h : CatalogOk c1) (hcont : dictContains c1 k = true) (hes : bucketOk es) :
    CatalogOk (dictSet c1 k es) := by
  obtain ⟨hkeys, hbuckets⟩ := h
  constructor
  · rw [keys_dictSet_of_contains _ hcont]
    exact hkeys
  · intro kv hkv
    rcases mem_dictSet hkv with heq | hm
    · rw [heq]
      exact hes
    · exact hbuckets kv hm

theorem bucketOk_get {c1 : Catalog} (k : String) (h : ∀ kv ∈ c1, bucketOk kv.2) :
    bucketOk ((dictGet c1 k).getD []) := by
  cases hg : dictGet c1 k with
  | none => exact List.Pairwise.nil
  | some es => exact h (k, es) (dictGet_mem hg)

theorem bucketOk_pruned_append {old : List CatalogEntry} {s : String}
    (e : CatalogEntry) (hold : bucketOk old) (hpe : e.peer_id = s) :
    bucketOk ((old.filter (fun x => ¬ x.peer_id = s)) ++ [e]) := by
  unfold bucketOk at hold ⊢
  rw [List.pairwise_append]
  refine ⟨hold.filter _, List.pairwise_singleton _ _, ?_⟩
  intro a ha b hb
  rw [List.mem_singleton] at hb
  subst hb
  have hna := of_decide_eq_true (List.mem_filter.mp ha).2
  rw [hpe]
  exact hna

theorem catalogOk_publishStep (ip s : String) (tp : Option Nat) (a? : Option Addr)
    {c : Catalog} (fm : String × FileMeta) (h : CatalogOk c) :
    CatalogOk (publishStep ip s tp a? c fm) := by
  unfold publishStep
  exact catalogOk_dictSet (catalogOk_pubEnsure fm.1 h) (pubEnsure_contains c fm.1)
    (bucketOk_pruned_append _ (bucketOk_get fm.1 (catalogOk_pubEnsure fm.1 h).2) rfl)

theorem catalogOk_publish_fold (ip s : String) (tp : Option Nat) (a? : Option Addr) :
    ∀ (fd : Dict String FileMeta) (c : Catalog), CatalogOk c →
      CatalogOk (fd.foldl (publishStep ip s tp a?) c) := by
  intro fd
  induction fd with
  | nil =>
    intro c h
    exact h
  | cons hd t ih =>
    intro c h
    rw [List.foldl_cons]
    exact ih _ (catalogOk_publishStep ip s tp a? hd h)

theorem catalogOk_removeDeadPeer {q : Peer} (pid : String)
    (h : CatalogOk q.global_catalog) :
    CatalogOk (removeDeadPeer q pid).global_catalog := by
  obtain ⟨hkeys, hbuckets⟩ := h
  constructor
  · apply List.Nodup.sublist ((List.filter_sublist _).map Prod.fst)
    rw [List.map_map]
    have hfst : (Prod.fst ∘ fun kv : String × List CatalogEntry =>
        (kv.1, kv.2.filter (fun e => ¬ e.peer_id = pid))) = Prod.fst := by
      funext kv
      rfl
    rw [hfst]
    exact hkeys
  · intro kv hkv
    have hkv' := List.mem_of_mem_filter hkv
    rcases List.mem_map.mp hkv' with ⟨kv0, hkv0, heq⟩
    rw [← heq]
    exact (hbuckets kv0 hkv0).filter _

theorem catalogOk_foldl_removeDead :
    ∀ (l : List String) (q : Peer), CatalogOk q.global_catalog →
      CatalogOk (l.foldl removeDeadPeer q).global_catalog := by
  intro l
  induction l with
  | nil =>
    intro q h
    exact h
  | cons x t ih =>
    intro q h
    rw [List.foldl_cons]
    exact ih _ (catalogOk_removeDeadPeer x h)

theorem handle_publish_state (p : Peer) (s : String) (files : FilesPayload)
    (tp : Option Nat) (a? : Option Addr) :
    (handle_publish p s files tp a?).state = p.state := by
  unfold handle_publish
  split <;> rfl

theorem handle_publish_localIp (p : Peer) (s : String) (files : FilesPayload)
    (tp : Option Nat) (a? : Option Addr) :
    (handle_publish p s files tp a?).localIp = p.localIp := by
  unfold handle_publish
  split <;> rfl

theorem handle_publish_catalog_leader {p : Peer} (s : String) (files : FilesPayload)
    (tp : Option Nat) (a? : Option Addr) (hL : p.state = Role.LEADER) :
    (handle_publish p s files tp a?).global_catalog =
      (filesToDict files).foldl (publishStep p.localIp s tp a?) p.global_catalog := by
  unfold handle_publish
  rw [if_pos hL]

theorem filter_idem (l : List CatalogEntry) (p : CatalogEntry → Bool) :
    (l.filter p).filter p = l.filter p := by
  rw [List.filter_filter]
  simp

theorem filter_peer_disjoint (l : List CatalogEntry) (s : String) :
    (l.filter (fun e => ¬ e.peer_id = s)).filter (fun e => e.peer_id = s) = [] := by
  apply List.filter_eq_nil_iff.mpr
  intro e he
  have hne := of_decide_eq_true (List.mem_filter.mp he).2
  simpa using hne

theorem double_publish_catalog (ip s F : String) (m1 m2 : FileMeta)
    (tp1 tp2 : Option Nat) (a1 a2 : Option Addr) (c : Catalog) :
    ((dictGet (publishStep ip s tp2 a2 (publishStep ip s tp1 a1 c (F, m1)) (F, m2))
        F).getD []).filter (fun e => e.peer_id = s) =
      [publishEntry ip s tp2 a2 m2] := by
  have h1 : dictGet (publishStep ip s tp1 a1 c (F, m1)) F =
      some ((((dictGet (pubEnsure c F) F).getD []).filter
        (fun e => ¬ e.peer_id = s)) ++ [publishEntry ip s tp1 a1 m1]) := by
    unfold publishStep
    exact dictGet_dictSet_self _ _ _
  have hcont : dictContains (publishStep ip s tp1 a1 c (F, m1)) F = true :=
    dictContains_eq_true_iff.mpr ⟨(F, _), dictGet_mem h1, rfl⟩
  have h2 : dictGet (publishStep ip s tp2 a2 (publishStep ip s tp1 a1 c (F, m1)) (F, m2)) F =
      some ((((dictGet (pubEnsure (publishStep ip s tp1 a1 c (F, m1)) F) F).getD []).filter
        (fun e => ¬ e.peer_id = s)) ++ [publishEntry ip s tp2 a2 m2]) := by
    unfold publishStep
    exact dictGet_dictSet_self _ _ _
  have hens : pubEnsure (publishStep ip s tp1 a1 c (F, m1)) F =
      publishStep ip s tp1 a1 c (F, m1) := by
    unfold pubEnsure
    rw [if_pos hcont]
  rw [h2, hens, h1]
  show ((((((dictGet (pubEnsure c F) F).getD []).filter (fun e => ¬ e.peer_id = s)) ++
      [publishEntry ip s tp1 a1 m1]).filter (fun e => ¬ e.peer_id = s)) ++
      [publishEntry ip s tp2 a2 m2]).filter (fun e => e.peer_id = s) =
      [publishEntry ip s tp2 a2 m2]
  rw [List.filter_append, List.filter_append, filter_idem, List.filter_append,
    filter_peer_disjoint, filter_peer_disjoint]
  simp [publishEntry]

/-- C2: the leader's catalog keeps at most one entry per
(filename, peer_id) pair — unique filename keys with per-bucket distinct
peer ids — and this invariant is preserved by PUBLISH processing, by the
liveness sweep, and by the catalog reset on a COORDINATOR announcement;
and a second PUBLISH of the same filename by the same peer replaces that
peer's entry, leaving exactly one entry for the pair, built from the
latest metadata (in particular the latest hash). -/
theorem catalog_unique_entry_invariant :
    (∀ (p : Peer) (s : String) (files : FilesPayload) (tp : Option Nat)
        (a? : Option Addr), CatalogOk p.global_catalog →
      CatalogOk (handle_publish p s files tp a?).global_catalog) ∧
    (∀ (now : Int) (p : Peer), CatalogOk p.global_catalog →
      CatalogOk (monitor_peers_sweep now p).global_catalog) ∧
    (∀ (now : Int) (p : Peer) (S : String) (a? : Option Addr),
      CatalogOk (handle_coordinator now p S a?).global_catalog) ∧
    (∀ (p : Peer) (s F : String) (m1 m2 : FileMeta) (tp1 tp2 : Option Nat)
        (a1 a2 : Option Addr), p.state = Role.LEADER →
      ((dictGet (handle_publish (handle_publish p s (FilesPayload.asMap [(F, m1)]) tp1 a1)
          s (FilesPayload.asMap [(F, m2)]) tp2 a2).global_catalog F).getD []).filter
        (fun e => e.peer_id = s) = [publishEntry p.localIp s tp2 a2 m2]) := by
  refine ⟨?_, ?_, ?_, ?_⟩
  · intro p s files tp a? h
    unfold handle_publish
    split
    · exact catalogOk_publish_fold p.localIp s tp a? (filesToDict files) p.global_catalog h
    · exact h
  · intro now p h
    unfold monitor_peers_sweep
    split
    · exact catalogOk_foldl_removeDead _ p h
    · exact h
  · intro now p S a?
    exact catalogOk_nil
  · intro p s F m1 m2 tp1 tp2 a1 a2 hL
    have hL1 : (handle_publish p s (FilesPayload.asMap [(F, m1)]) tp1 a1).state =
        Role.LEADER := (handle_publish_state p s _ tp1 a1).trans hL
    rw [handle_publish_catalog_leader s _ tp2 a2 hL1,
      handle_publish_localIp p s _ tp1 a1,
      handle_publish_catalog_leader s _ tp1 a1 hL]
    show ((dictGet (publishStep p.localIp s tp2 a2
        (publishStep p.localIp s tp1 a1 p.global_catalog (F, m1)) (F, m2)) F).getD
        []).filter (fun e => e.peer_id = s) = [publishEntry p.localIp s tp2 a2 m2]
    exact double_publish_catalog p.localIp s F m1 m2 tp1 tp2 a1 a2 p.global_catalog

/-- Witness for catalog_unique_entry_invariant at concrete leader states. -/
theorem catalog_unique_entry_invariant_witness :
    CatalogOk (handle_publish pL "q" (FilesPayload.asMap [("a.txt", ⟨1, some "h1"⟩)])
      (some 7) (some ("10.0.0.5", 4))).global_catalog ∧
    CatalogOk (monitor_peers_sweep 100 pL).global_catalog ∧
    CatalogOk (handle_coordinator 3 pL "Z" (some ("10.0.0.9", 7))).global_catalog ∧
    ((dictGet (handle_publish (handle_publish pL "q"
        (FilesPayload.asMap [("a.txt", ⟨1, some "h1"⟩)]) (some 7) (some ("10.0.0.5", 4)))
        "q" (FilesPayload.asMap [("a.txt", ⟨2, some "h2"⟩)]) (some 7)
        (some ("10.0.0.5", 4))).global_catalog "a.txt").getD []).filter
      (fun e => e.peer_id = "q") =
      [publishEntry pL.localIp "q" (some 7) (some ("10.0.0.5", 4)) ⟨2, some "h2"⟩] :=
  ⟨catalog_unique_entry_invariant.1 pL "q" _ (some 7) (some ("10.0.0.5", 4)) (by decide),
   catalog_unique_entry_invariant.2.1 100 pL (by decide),
   catalog_unique_entry_invariant.2.2.1 3 pL "Z" (some ("10.0.0.9", 7)),
   catalog_unique_entry_invariant.2.2.2 pL "q" "a.txt" ⟨1, some "h1"⟩ ⟨2, some "h2"⟩
     (some 7) (some 7) (some ("10.0.0.5", 4)) (some ("10.0.0.5", 4)) rfl⟩

end Legion
